import Mathlib

/-
Verification of the smart-conversation query-to-context pipeline of
git-ai-core, a shallow embedding of
backend/app/core/advanced_smart_conversation_manager.py and
backend/app/core/smart_conversation_manager.py.

Python str values are modelled as Lean String (sequences of Unicode code
points).  External effects (the MCP project file server, the AI chat call,
the clock) are modelled as explicit function parameters.  All definitions
are executable so that concrete scenarios evaluate by kernel reduction.
-/

/-- Models the character class backslash-w of Python regular expressions,
restricted to the alphabets occurring in this codebase: ASCII letters and
digits, the underscore, and CJK unified ideographs (every Chinese keyword
and stop word of the source lies in that block). -/
def isWordChar (c : Char) : Bool :=
  c.isAlphanum || c = '_' || (0x4E00 ≤ c.toNat && c.toNat ≤ 0x9FFF)

/-- Helper for pySplit: accumulates the current word (reversed). -/
def splitWsAux : List Char → List Char → List String
  | [], acc => if acc.isEmpty then [] else [String.mk acc.reverse]
  | c :: rest, acc =>
    if c.isWhitespace then
      if acc.isEmpty then splitWsAux rest []
      else String.mk acc.reverse :: splitWsAux rest []
    else splitWsAux rest (c :: acc)

/-- Models Python str.split with no argument: split on runs of whitespace,
discarding empty pieces. -/
def pySplit (s : String) : List String :=
  splitWsAux s.data []

/-- Models Python str.lower for the alphabets used here (ASCII letters are
mapped, CJK ideographs are unchanged by both). -/
def pyLower (s : String) : String :=
  String.mk (s.data.map Char.toLower)

/-- Models Python str.upper for the alphabets used here. -/
def pyUpper (s : String) : String :=
  String.mk (s.data.map Char.toUpper)

/-- Whether the character list pat occurs at the head of s. -/
def listStartsWith : List Char → List Char → Bool
  | _, [] => true
  | [], _ :: _ => false
  | a :: as, b :: bs => a = b && listStartsWith as bs

/-- Whether pat occurs as a contiguous sublist of s. -/
def listHasSub (s pat : List Char) : Bool :=
  match s with
  | [] => listStartsWith [] pat
  | _ :: rest => listStartsWith s pat || listHasSub rest pat

/-- Models the Python expression pat in s on strings (substring test). -/
def strContains (s pat : String) : Bool :=
  listHasSub s.data pat.data

/-- Models str.join: joinWith sep [a, b, c] = a ++ sep ++ b ++ sep ++ c. -/
def joinWith (sep : String) : List String → String
  | [] => ""
  | [w] => w
  | w :: ws => w ++ sep ++ joinWith sep ws

/-- Models Python s.lstrip(chars) for the call s.lstrip with the two
characters dot and slash: drops every leading character from that set. -/
def lstripDotSlash (s : String) : String :=
  String.mk (s.data.dropWhile (fun c => c = '.' || c = '/'))

/-- Assoc-list lookup keyed by strings, modelling Python dict access for the
fixed literal dicts of the source (dict iteration order = insertion order). -/
def lookupStr {α : Type} : List (String × α) → String → Option α
  | [], _ => none
  | kv :: rest, k => if kv.1 = k then some kv.2 else lookupStr rest k

/-- The stop-word set of IntentRecognizer.extract_keywords. -/
def stop_words : List String :=
  ["的", "了", "在", "是", "我", "你", "他", "她", "它", "这", "那",
   "哪些", "什么", "怎么", "如何"]

/-- IntentRecognizer.extract_keywords: replace every character that is
neither a word character nor whitespace by a space (re.sub), split on
whitespace, and keep the words that are not stop words and have length
strictly greater than 1. -/
def extract_keywords (query : String) : List String :=
  let cleaned_query := String.mk (query.data.map
    (fun c => if isWordChar c then c else if c.isWhitespace then c else ' '))
  let words := pySplit cleaned_query
  words.filter (fun word => decide (word ∉ stop_words ∧ 1 < word.length))

/-- IntentRecognizer.FILE_TYPE_PATTERNS, in source order. -/
def FILE_TYPE_PATTERNS : List (String × List String) :=
  [("python", [".py", "requirements.txt", "setup.py", "pyproject.toml"]),
   ("javascript", [".js", ".ts", ".jsx", ".tsx", "package.json"]),
   ("config", [".json", ".yaml", ".yml", ".toml", ".ini", ".env"]),
   ("documentation", [".md", ".txt", "README", "LICENSE", "CHANGELOG"]),
   ("build", ["Dockerfile", "Makefile", "docker-compose.yml", ".gitignore"])]

/-- IntentRecognizer.KEYWORD_MAPPINGS, in source order. -/
def KEYWORD_MAPPINGS : List (String × List String) :=
  [("库", ["requirements.txt", "package.json", "pyproject.toml", "setup.py"]),
   ("导入", [".py", ".js", ".ts"]),
   ("依赖", ["requirements.txt", "package.json", "pyproject.toml"]),
   ("配置", [".env", "config/", "settings/", ".json", ".yaml"]),
   ("文档", ["README.md", "docs/", ".md"]),
   ("函数", [".py", ".js", ".ts"]),
   ("类", [".py", ".js", ".ts"]),
   ("模块", [".py", ".js", ".ts"]),
   ("包", ["requirements.txt", "package.json"]),
   ("安装", ["requirements.txt", "package.json", "setup.py"]),
   ("代码", [".py", ".js", ".ts", ".java", ".cpp", ".c"]),
   ("项目", ["README.md", "package.json", "pyproject.toml"]),
   ("架构", ["README.md", "docs/", "architecture.md"]),
   ("测试", ["test/", "tests/", ".test.", ".spec."])]

/-- IntentRecognizer.identify_file_types: a keyword hits a category when any
of the category patterns occurs inside the keyword; categories accumulate in
first-hit order without repeats; an empty result falls back to the fixed
default list. -/
def identify_file_types (keywords : List String) : List String :=
  let file_types := keywords.foldl (fun acc keyword =>
    FILE_TYPE_PATTERNS.foldl (fun acc2 ftp =>
      if ftp.2.any (fun pattern => strContains keyword pattern) then
        if ftp.1 ∈ acc2 then acc2 else acc2 ++ [ftp.1]
      else acc2) acc) []
  if file_types.isEmpty then ["python", "javascript", "config"] else file_types

/-- The file-tree shape built by IntentRecognizer.get_project_structure: a
node is a file (with name and relative path) or a directory with an ordered
children list. -/
inductive FileTree where
  | file (name : String) (path : String)
  | dir (name : String) (children : List FileTree)

mutual

/-- IntentRecognizer.find_files_in_tree: depth-first walk; a file node is
reported (by NAME, not by full path — as in the source) when its lower-cased
name contains any lower-cased pattern. -/
def find_files_in_tree : FileTree → List String → List String
  | FileTree.file name _, patterns =>
      if patterns.any (fun pattern => strContains (pyLower name) (pyLower pattern)) then
        [name]
      else []
  | FileTree.dir _ children, patterns => find_files_in_forest children patterns

/-- The loop over a children list inside find_files_in_tree. -/
def find_files_in_forest : List FileTree → List String → List String
  | [], _ => []
  | t :: ts, patterns => find_files_in_tree t patterns ++ find_files_in_forest ts patterns

end

/-- One entry of the suggested_files list built by
IntentRecognizer.match_files_to_query. -/
structure FileCandidate where
  file_path : String
  reason : String
  priority : Nat
deriving DecidableEq

/-- The duplicate check used in passes 2 to 5 of match_files_to_query:
append the candidate unless some earlier candidate already has its path. -/
def appendIfNew (acc : List FileCandidate) (c : FileCandidate) : List FileCandidate :=
  if ∃ f ∈ acc, f.file_path = c.file_path then acc else acc ++ [c]

/-- The file_name_patterns list of pass 1 of match_files_to_query. -/
def file_name_patterns : List String :=
  [".py", ".js", ".ts", ".json", ".md", ".txt", ".yaml", ".yml"]

/-- The common_configs list of pass 5 of match_files_to_query. -/
def common_configs : List String :=
  ["README.md", "package.json", "requirements.txt", "pyproject.toml", "setup.py"]

/-- IntentRecognizer.match_files_to_query: the five candidate-producing
passes in source order.  Pass 1 (priority 20) appends without a duplicate
check; passes 2 (priority 15), 3 (the two special intents, priorities 18 and
16, tested against the space-joined lower-cased keyword string), 4 (priority
10) and 5 (priority 5) each skip paths already suggested. -/
def match_files_to_query (project_structure : FileTree) (keywords : List String)
    (file_types : List String) : List FileCandidate :=
  let s1 := keywords.foldl (fun acc keyword =>
    if file_name_patterns.any (fun pattern => strContains keyword pattern) then
      acc ++ (find_files_in_tree project_structure [keyword]).map
        (fun fp => { file_path := fp, reason := "精确文件名匹配 " ++ keyword, priority := 20 })
    else acc) []
  let s2 := keywords.foldl (fun acc keyword =>
    match lookupStr KEYWORD_MAPPINGS keyword with
    | some patterns => (find_files_in_tree project_structure patterns).foldl
        (fun acc2 fp => appendIfNew acc2 ⟨fp, "关键词 " ++ keyword ++ " 匹配", 15⟩) acc
    | none => acc) s1
  let query_context := pyLower (joinWith " " keywords)
  let s3 :=
    if ["ai.py", "ai文件", "ai模块"].any (fun term => strContains query_context term) then
      (find_files_in_tree project_structure ["ai.py", "ai_", "_ai"]).foldl
        (fun acc fp => appendIfNew acc ⟨fp, "AI相关文件", 18⟩) s2
    else s2
  let s4 :=
    if ["依赖", "库", "package", "requirement"].any (fun term => strContains query_context term) then
      (find_files_in_tree project_structure ["requirements.txt", "package.json", "pyproject.toml"]).foldl
        (fun acc fp => appendIfNew acc ⟨fp, "依赖配置文件", 16⟩) s3
    else s3
  let s5 := file_types.foldl (fun acc file_type =>
    let patterns := (lookupStr FILE_TYPE_PATTERNS file_type).getD []
    (find_files_in_tree project_structure patterns).foldl
      (fun acc2 fp => appendIfNew acc2 ⟨fp, "文件类型 " ++ file_type ++ " 匹配", 10⟩) acc) s4
  common_configs.foldl (fun acc config_file =>
    (find_files_in_tree project_structure [config_file]).foldl
      (fun acc2 fp => appendIfNew acc2 ⟨fp, "常见项目配置文件", 5⟩) acc) s5

/-- One step of the deduplicating dict build in
IntentRecognizer.prioritize_and_deduplicate: a Python dict keyed by
file_path, where assignment to an existing key replaces the value in place
(keeping the first-insertion position) and happens only when the new
priority is strictly greater. -/
def dictInsert (m : List FileCandidate) (c : FileCandidate) : List FileCandidate :=
  if ∃ x ∈ m, x.file_path = c.file_path then
    m.map (fun x => if x.file_path = c.file_path ∧ c.priority > x.priority then c else x)
  else m ++ [c]

/-- Stable descending insertion: place c before the first element whose
priority is at most that of c. -/
def insertDesc (c : FileCandidate) : List FileCandidate → List FileCandidate
  | [] => [c]
  | x :: xs => if x.priority ≤ c.priority then c :: x :: xs else x :: insertDesc c xs

/-- Models Python sorted(values, key priority, reverse=True), which is a
stable descending sort. -/
def sortDesc : List FileCandidate → List FileCandidate
  | [] => []
  | x :: xs => insertDesc x (sortDesc xs)

/-- IntentRecognizer.prioritize_and_deduplicate: build the dedup dict by a
left fold, then stably sort its values by descending priority. -/
def prioritize_and_deduplicate (files : List FileCandidate) : List FileCandidate :=
  sortDesc (files.foldl dictInsert [])

/-- IntentRecognizer.analyze_query with the external file-tree fetch
(get_project_structure) abstracted into the tree argument: lower-case the
query, extract keywords, classify file types, run the matching passes,
deduplicate and rank, and return at most 8 entries. -/
def analyze_query (project_structure : FileTree) (query : String) : List FileCandidate :=
  let keywords := extract_keywords (pyLower query)
  let file_types := identify_file_types keywords
  let suggested_files := match_files_to_query project_structure keywords file_types
  (prioritize_and_deduplicate suggested_files).take 8

/-- Outcome of one call to the external MCP read
(project_mcp_server.read_project_file) for a given path: either the call
raised, or it returned a result dict with a success flag and a content
string (content truthiness in Python = non-emptiness). -/
inductive ReadOutcome where
  | raised (msg : String)
  | result (success : Bool) (content : String)

/-- AutoFileReader.read_file: catches every exception from the MCP read and
returns the content only when the result is successful with non-empty
content; in all other cases (raise, failure flag, empty content) it returns
none.  In particular this function itself never raises. -/
def read_file (fs : String → ReadOutcome) (file_path : String) : Option String :=
  match fs file_path with
  | ReadOutcome.raised _ => none
  | ReadOutcome.result success content =>
      if success ∧ content ≠ "" then some content else none

/-- AutoFileReader.read_files: loop over the requested paths, keeping the
paths whose read_file call returns content.  In the source the loop body is
a try block whose except branch performs path correction; that branch can
only run when read_file raises, and read_file catches every exception and
returns None instead, so the except branch is unreachable and the loop
reduces to this fold (a failed or empty read is logged and skipped). -/
def read_files (fs : String → ReadOutcome) (file_requests : List String) :
    List (String × String) :=
  file_requests.foldl (fun acc file_path =>
    match read_file fs file_path with
    | some content => acc ++ [(file_path, content)]
    | none => acc) []

/-- The common_files dict of AutoFileReader.try_correct_path. -/
def common_files : List (String × List String) :=
  [("requirements.txt", ["requirements.txt", "reqs.txt"]),
   ("package.json", ["package.json", "package-lock.json"]),
   ("README.md", ["README.md", "readme.md", "Readme.md"]),
   ("pyproject.toml", ["pyproject.toml"]),
   ("setup.py", ["setup.py"])]

/-- The ordered corrections list of AutoFileReader.try_correct_path:
verbatim, lower-cased, upper-cased, with a leading ./ added, with every
leading dot or slash stripped, then the well-known alternate spellings. -/
def corrections (original_path : String) : List String :=
  [original_path, pyLower original_path, pyUpper original_path,
   "./" ++ original_path, lstripDotSlash original_path] ++
  ((lookupStr common_files original_path).getD [])

/-- The per-candidate test inside try_correct_path: the MCP read returned
successfully with non-empty content (a raise is caught and counts as a
miss). -/
def correctionHit (fs : String → ReadOutcome) (corrected_path : String) : Bool :=
  match fs corrected_path with
  | ReadOutcome.raised _ => false
  | ReadOutcome.result success content => success && decide (content ≠ "")

/-- AutoFileReader.try_correct_path: walk the corrections in order, skipping
any candidate equal to the original path, and return the first candidate
whose read succeeds with non-empty content. -/
def try_correct_path (fs : String → ReadOutcome) (original_path : String) : Option String :=
  (corrections original_path).find?
    (fun corrected_path => decide (corrected_path ≠ original_path) && correctionHit fs corrected_path)

/-- FileContextTracker preview computation: the first 200 characters of the
content plus an ellipsis marker when the content is longer than 200. -/
def preview (content : String) : String :=
  if content.length > 200 then String.mk (content.data.take 200) ++ "..." else content

/-- One value of the FileContextTracker.read_history dict. -/
structure ReadHistoryEntry where
  timestamp : String
  preview : String
  content_length : Nat
deriving DecidableEq

/-- FileContextTracker.track_file_read with the clock abstracted into the
now argument: upsert the entry keyed by file_path into the read_history
dict (replacement keeps the first-insertion position, as Python dict
assignment does). -/
def track_file_read (read_history : List (String × ReadHistoryEntry)) (now : String)
    (file_path : String) (content : String) : List (String × ReadHistoryEntry) :=
  let entry : ReadHistoryEntry := ⟨now, preview content, content.length⟩
  if ∃ kv ∈ read_history, kv.1 = file_path then
    read_history.map (fun kv => if kv.1 = file_path then (file_path, entry) else kv)
  else read_history ++ [(file_path, entry)]

/-- Lookup in the read_history dict. -/
def lookupEntry : List (String × ReadHistoryEntry) → String → Option ReadHistoryEntry
  | [], _ => none
  | kv :: rest, k => if kv.1 = k then some kv.2 else lookupEntry rest k

/-- Lookup in the file_contents mapping of the orchestrator. -/
def lookupContent : List (String × String) → String → Option String
  | [], _ => none
  | kv :: rest, k => if kv.1 = k then some kv.2 else lookupContent rest k

/-- One element of the tool_calls list assembled by
AdvancedSmartConversationManager.process_smart_chat. -/
structure ToolCallRecord where
  tool_name : String
  arg_project_path : String
  arg_file_path : String
  result_success : Bool
  result_content : String
  reason : String
deriving DecidableEq

/-- The result object returned by process_smart_chat (the analysis_context
field of the success branch is omitted; the claims under verification only
concern response, tool_calls, conversation_id and error). -/
structure ChatOutcome where
  response : String
  tool_calls : List ToolCallRecord
  conversation_id : String
  error : Option String
deriving DecidableEq

/-- The fixed fallback file list substituted when analyze_query returns no
candidates. -/
def default_file_requests : List FileCandidate :=
  [⟨"README.md", "默认项目文档", 1⟩, ⟨"package.json", "默认项目配置", 1⟩]

/-- The pipeline stages inside the try block of process_smart_chat, with
each externally-effectful stage (intent analysis, file reading, response
generation) abstracted as an Except-valued computation whose error value is
the message of the exception that stage raised.  The first raising stage
aborts the pipeline, exactly as an exception aborts the Python try block. -/
def pipelineE (analyze : Except String (List FileCandidate))
    (readF : List FileCandidate → Except String (List (String × String)))
    (gen : List (String × String) → Except String String) :
    Except String (String × List FileCandidate × List (String × String)) :=
  match analyze with
  | Except.error e => Except.error e
  | Except.ok fr =>
    let file_requests := if fr.isEmpty then default_file_requests else fr
    match readF file_requests with
    | Except.error e => Except.error e
    | Except.ok file_contents =>
      match gen file_contents with
      | Except.error e => Except.error e
      | Except.ok response_content => Except.ok (response_content, file_requests, file_contents)

/-- AdvancedSmartConversationManager.process_smart_chat: run the pipeline
stages inside a catch-all; on success assemble the tool-call audit list
(one read_project_file record per selected file, successful when its path
is in the contents map); on any exception return a result object whose
response text is the fixed Chinese prefix plus the exception message, with
an empty tool-call list and the error field set. -/
def process_smart_chat (conversation_id : String) (project_path : String)
    (analyze : Except String (List FileCandidate))
    (readF : List FileCandidate → Except String (List (String × String)))
    (gen : List (String × String) → Except String String) : ChatOutcome :=
  match pipelineE analyze readF gen with
  | Except.ok (response_content, file_requests, file_contents) =>
    { response := response_content
      tool_calls := file_requests.map (fun req =>
        { tool_name := "read_project_file"
          arg_project_path := project_path
          arg_file_path := req.file_path
          result_success := (lookupContent file_contents req.file_path).isSome
          result_content := (lookupContent file_contents req.file_path).getD ""
          reason := req.reason })
      conversation_id := conversation_id
      error := none }
  | Except.error e =>
    { response := "处理请求时发生错误: " ++ e
      tool_calls := []
      conversation_id := conversation_id
      error := some e }

/-- One entry of the file list produced by
SmartConversationManager.analyze_user_query (the AI-driven variant). -/
structure FileRequest where
  file_path : String
  reason : String
deriving DecidableEq

/-- The fixed default two-file shortlist of the AI-driven variant. -/
def default_file_list : List FileRequest :=
  [⟨"README.md", "了解项目概述和功能"⟩, ⟨"package.json", "了解项目依赖和配置"⟩]

/-- SmartConversationManager.analyze_user_query, from the point where the AI
reply text is in hand: json.loads is modelled as an explicit parse parameter
(an external library call); a parse error is caught and replaced by the
fixed default two-file list, a successful parse is returned unchanged. -/
def analyze_user_query (ai_content : String)
    (json_loads : String → Except String (List FileRequest)) : List FileRequest :=
  match json_loads ai_content with
  | Except.ok file_requests => file_requests
  | Except.error _ => default_file_list

/-- Specification-side helper for the dedup semantics of claim C5: fold step
keeping, for one path p, the first candidate seen with the maximal priority
(a later candidate replaces only on strictly greater priority). -/
def chooseBest (acc : Option FileCandidate) (c : FileCandidate) (p : String) :
    Option FileCandidate :=
  if c.file_path = p then
    match acc with
    | none => some c
    | some b => if c.priority > b.priority then some c else some b
  else acc

/-- Specification-side helper: the first candidate of maximal priority for
path p across the whole input list. -/
def bestFor (files : List FileCandidate) (p : String) : Option FileCandidate :=
  files.foldl (fun acc c => chooseBest acc c p) none

/-- First candidate in a list with the given path. -/
def lookupPath : List FileCandidate → String → Option FileCandidate
  | [], _ => none
  | x :: xs, p => if x.file_path = p then some x else lookupPath xs p

/-- The paths of a candidate list, in order. -/
def pathsOf (l : List FileCandidate) : List String :=
  l.map (fun c => c.file_path)

/-- The distinct elements of a list in order of first occurrence. -/
def firstOccur (ps : List String) : List String :=
  ps.foldl (fun acc p => if p ∈ acc then acc else acc ++ [p]) []

/-- The sublist of candidates having exactly priority v. -/
def filterPr (v : Nat) (l : List FileCandidate) : List FileCandidate :=
  l.filter (fun c => decide (c.priority = v))

/-- The project tree of end-to-end scenario A (claim C3). -/
def scenarioA_tree : FileTree :=
  FileTree.dir "project"
    [FileTree.file "requirements.txt" "requirements.txt",
     FileTree.file "main.py" "main.py"]

/-- The query of end-to-end scenario A (claim C3). -/
def scenarioA_query : String := "what dependencies does this project use"

/-- The project tree of end-to-end scenario B (claim C4). -/
def scenarioB_tree : FileTree :=
  FileTree.dir "project"
    [FileTree.dir "app"
      [FileTree.dir "core"
        [FileTree.file "ai_manager.py" "app/core/ai_manager.py"]]]

/-- The query of end-to-end scenario B (claim C4). -/
def scenarioB_query : String := "explain the ai.py module"

/-- A concrete MCP filesystem for claim C2: the verbatim path README.md
fails (success false), while the corrected path ./README.md succeeds with
non-empty content. -/
def c2fs : String → ReadOutcome := fun p =>
  if p = "./README.md" then ReadOutcome.result true "hello" else ReadOutcome.result false ""

/-- A concrete content string for claim C9: 200 letters followed by the
three-character ellipsis marker, 203 characters in total. -/
def c9input : String :=
  String.mk (List.replicate 200 'a') ++ "..."


/-
Helper lemmas about the deduplicating dict build and the stable descending
sort of prioritize_and_deduplicate.
-/

theorem mem_pathsOf {p : String} {l : List FileCandidate} :
    p ∈ pathsOf l ↔ ∃ c ∈ l, c.file_path = p := by
  simp [pathsOf]

theorem dictInsert_nil (c : FileCandidate) : dictInsert [] c = [c] := by
  simp [dictInsert]

theorem dictInsert_cons_miss (x c : FileCandidate) (m : List FileCandidate)
    (h : x.file_path ≠ c.file_path) :
    dictInsert (x :: m) c = x :: dictInsert m c := by
  unfold dictInsert
  by_cases hm : ∃ y ∈ m, y.file_path = c.file_path
  · have h1 : ∃ y ∈ x :: m, y.file_path = c.file_path := by
      obtain ⟨y, hy, hyp⟩ := hm
      exact ⟨y, List.mem_cons_of_mem _ hy, hyp⟩
    rw [if_pos h1, if_pos hm, List.map_cons, if_neg (fun hand => h hand.1)]
  · have h1 : ¬ ∃ y ∈ x :: m, y.file_path = c.file_path := by
      rintro ⟨y, hy, hyp⟩
      rcases List.mem_cons.mp hy with h2 | h2
      · exact h (h2 ▸ hyp)
      · exact hm ⟨y, h2, hyp⟩
    rw [if_neg h1, if_neg hm, List.cons_append]

theorem dictInsert_cons_hit (x c : FileCandidate) (m : List FileCandidate)
    (hx : x.file_path = c.file_path) (hm : ∀ y ∈ m, y.file_path ≠ c.file_path) :
    dictInsert (x :: m) c = (if c.priority > x.priority then c else x) :: m := by
  unfold dictInsert
  have h1 : ∃ y ∈ x :: m, y.file_path = c.file_path := ⟨x, List.mem_cons_self x m, hx⟩
  rw [if_pos h1, List.map_cons]
  have h2 : ∀ y ∈ m,
      (if y.file_path = c.file_path ∧ c.priority > y.priority then c else y) = y :=
    fun y hy => if_neg (fun hand => hm y hy hand.1)
  rw [List.map_congr_left h2]
  congr 1
  · by_cases hp : c.priority > x.priority
    · rw [if_pos ⟨hx, hp⟩, if_pos hp]
    · rw [if_neg (fun hand => hp hand.2), if_neg hp]
  · simp

theorem pathsOf_dictInsert (m : List FileCandidate) (c : FileCandidate) :
    pathsOf (dictInsert m c) =
      if c.file_path ∈ pathsOf m then pathsOf m else pathsOf m ++ [c.file_path] := by
  unfold dictInsert
  by_cases hm : ∃ x ∈ m, x.file_path = c.file_path
  · have hmem : c.file_path ∈ pathsOf m := mem_pathsOf.mpr hm
    rw [if_pos hm, if_pos hmem]
    unfold pathsOf
    rw [List.map_map]
    apply List.map_congr_left
    intro x _
    by_cases hc : x.file_path = c.file_path ∧ c.priority > x.priority
    · simp only [Function.comp, if_pos hc]
      exact hc.1.symm
    · simp only [Function.comp, if_neg hc]
  · have hmem : c.file_path ∉ pathsOf m := fun h => hm (mem_pathsOf.mp h)
    rw [if_neg hm, if_neg hmem]
    unfold pathsOf
    rw [List.map_append]
    rfl

theorem nodup_pathsOf_dictInsert (m : List FileCandidate) (c : FileCandidate)
    (h : (pathsOf m).Nodup) : (pathsOf (dictInsert m c)).Nodup := by
  rw [pathsOf_dictInsert]
  by_cases hmem : c.file_path ∈ pathsOf m
  · rwa [if_pos hmem]
  · rw [if_neg hmem]
    simp [List.nodup_append, h, hmem]

theorem lookupPath_of_mem (l : List FileCandidate) (c : FileCandidate)
    (hnd : (pathsOf l).Nodup) (hc : c ∈ l) : lookupPath l c.file_path = some c := by
  induction l with
  | nil => cases hc
  | cons x xs ih =>
    have hnd' : (x.file_path :: pathsOf xs).Nodup := hnd
    have hnd2 := List.nodup_cons.mp hnd'
    rcases List.mem_cons.mp hc with rfl | hc2
    · simp [lookupPath]
    · have hxne : x.file_path ≠ c.file_path := by
        intro h
        exact hnd2.1 (h ▸ mem_pathsOf.mpr ⟨c, hc2, rfl⟩)
      simp only [lookupPath, if_neg hxne]
      exact ih hnd2.2 hc2

theorem lookupPath_dictInsert (m : List FileCandidate) (c : FileCandidate) (p : String)
    (hnd : (pathsOf m).Nodup) :
    lookupPath (dictInsert m c) p = chooseBest (lookupPath m p) c p := by
  induction m with
  | nil =>
    rw [dictInsert_nil]
    by_cases hp : c.file_path = p
    · simp [lookupPath, chooseBest, hp]
    · simp [lookupPath, chooseBest, hp]
  | cons x xs ih =>
    have hnd' : (x.file_path :: pathsOf xs).Nodup := hnd
    have hnd2 := List.nodup_cons.mp hnd'
    by_cases hx : x.file_path = c.file_path
    · have hys : ∀ y ∈ xs, y.file_path ≠ c.file_path := by
        intro y hy h
        apply hnd2.1
        rw [hx]
        exact h ▸ mem_pathsOf.mpr ⟨y, hy, rfl⟩
      rw [dictInsert_cons_hit x c xs hx hys]
      by_cases hp : c.file_path = p
      · have hxp : x.file_path = p := hx.trans hp
        by_cases hpr : c.priority > x.priority
        · simp [lookupPath, if_pos hpr, hp, hxp, chooseBest, hpr]
        · simp [lookupPath, if_neg hpr, hp, hxp, chooseBest, hpr]
      · have hxp : x.file_path ≠ p := fun h => hp (hx.symm.trans h)
        by_cases hpr : c.priority > x.priority
        · simp [lookupPath, if_pos hpr, hp, hxp, chooseBest]
        · simp [lookupPath, if_neg hpr, hp, hxp, chooseBest]
    · rw [dictInsert_cons_miss x c xs hx]
      by_cases hxp : x.file_path = p
      · have hcp : c.file_path ≠ p := fun h => hx (hxp.trans h.symm)
        simp [lookupPath, hxp, chooseBest, hcp]
      · simp only [lookupPath, if_neg hxp]
        exact ih hnd2.2

theorem lookupPath_foldl (files : List FileCandidate) (m : List FileCandidate) (p : String)
    (hnd : (pathsOf m).Nodup) :
    lookupPath (files.foldl dictInsert m) p =
      files.foldl (fun acc c => chooseBest acc c p) (lookupPath m p) := by
  induction files generalizing m with
  | nil => rfl
  | cons c fs ih =>
    rw [List.foldl_cons, List.foldl_cons,
      ih (dictInsert m c) (nodup_pathsOf_dictInsert m c hnd),
      lookupPath_dictInsert m c p hnd]

theorem lookupPath_dedup (files : List FileCandidate) (p : String) :
    lookupPath (files.foldl dictInsert []) p = bestFor files p := by
  have h := lookupPath_foldl files [] p (by simp [pathsOf])
  simpa [lookupPath, bestFor] using h

theorem nodup_dedup (files : List FileCandidate) :
    (pathsOf (files.foldl dictInsert [])).Nodup := by
  suffices h : ∀ m, (pathsOf m).Nodup → (pathsOf (files.foldl dictInsert m)).Nodup by
    exact h [] (by simp [pathsOf])
  induction files with
  | nil => exact fun m hm => hm
  | cons c fs ih => exact fun m hm => ih _ (nodup_pathsOf_dictInsert m c hm)

theorem insertDesc_perm (c : FileCandidate) (l : List FileCandidate) :
    List.Perm (insertDesc c l) (c :: l) := by
  induction l with
  | nil => exact List.Perm.refl _
  | cons x xs ih =>
    unfold insertDesc
    by_cases h : x.priority ≤ c.priority
    · rw [if_pos h]
    · rw [if_neg h]
      exact (ih.cons x).trans (List.Perm.swap c x xs)

theorem sortDesc_perm (l : List FileCandidate) : List.Perm (sortDesc l) l := by
  induction l with
  | nil => exact List.Perm.refl _
  | cons x xs ih =>
    show List.Perm (insertDesc x (sortDesc xs)) (x :: xs)
    exact (insertDesc_perm x (sortDesc xs)).trans (ih.cons x)

theorem mem_insertDesc {y c : FileCandidate} {l : List FileCandidate} :
    y ∈ insertDesc c l ↔ y = c ∨ y ∈ l := by
  rw [(insertDesc_perm c l).mem_iff]
  exact List.mem_cons

theorem sorted_insertDesc (c : FileCandidate) (l : List FileCandidate)
    (h : List.Sorted (fun a b => b.priority ≤ a.priority) l) :
    List.Sorted (fun a b => b.priority ≤ a.priority) (insertDesc c l) := by
  induction l with
  | nil => simp [insertDesc]
  | cons x xs ih =>
    rw [List.sorted_cons] at h
    unfold insertDesc
    by_cases hcx : x.priority ≤ c.priority
    · rw [if_pos hcx, List.sorted_cons]
      refine ⟨fun y hy => ?_, List.sorted_cons.mpr h⟩
      rcases List.mem_cons.mp hy with rfl | hy2
      · exact hcx
      · exact le_trans (h.1 y hy2) hcx
    · rw [if_neg hcx, List.sorted_cons]
      refine ⟨fun y hy => ?_, ih h.2⟩
      rcases mem_insertDesc.mp hy with rfl | hy2
      · exact le_of_not_le hcx
      · exact h.1 y hy2

theorem sortDesc_sorted (l : List FileCandidate) :
    List.Sorted (fun a b => b.priority ≤ a.priority) (sortDesc l) := by
  induction l with
  | nil => simp [sortDesc]
  | cons x xs ih => exact sorted_insertDesc x _ ih

theorem filterPr_insertDesc (v : Nat) (c : FileCandidate) (l : List FileCandidate) :
    filterPr v (insertDesc c l) =
      if c.priority = v then c :: filterPr v l else filterPr v l := by
  induction l with
  | nil => by_cases h : c.priority = v <;> simp [insertDesc, filterPr, h]
  | cons x xs ih =>
    unfold insertDesc
    by_cases hcx : x.priority ≤ c.priority
    · rw [if_pos hcx]
      by_cases hcv : c.priority = v <;> simp [filterPr, List.filter_cons, hcv]
    · rw [if_neg hcx]
      by_cases hcv : c.priority = v
      · have hxv : x.priority ≠ v := fun h => hcx (le_of_eq (h.trans hcv.symm))
        simp [filterPr, List.filter_cons, hxv, hcv] at ih ⊢
        exact ih
      · by_cases hxv : x.priority = v <;>
          simp [filterPr, List.filter_cons, hxv, hcv] at ih ⊢ <;> exact ih

theorem filterPr_sortDesc (v : Nat) (l : List FileCandidate) :
    filterPr v (sortDesc l) = filterPr v l := by
  induction l with
  | nil => rfl
  | cons x xs ih =>
    show filterPr v (insertDesc x (sortDesc xs)) = _
    rw [filterPr_insertDesc]
    by_cases hxv : x.priority = v <;> simp [filterPr, List.filter_cons, hxv] at ih ⊢ <;>
      exact ih

theorem pathsOf_foldl (files : List FileCandidate) (m : List FileCandidate) :
    pathsOf (files.foldl dictInsert m) =
      files.foldl
        (fun acc c => if c.file_path ∈ acc then acc else acc ++ [c.file_path])
        (pathsOf m) := by
  induction files generalizing m with
  | nil => rfl
  | cons c fs ih =>
    rw [List.foldl_cons, List.foldl_cons, ih, pathsOf_dictInsert]

theorem pathsOf_dedup_firstOccur (files : List FileCandidate) :
    pathsOf (files.foldl dictInsert []) =
      firstOccur (files.map (fun c => c.file_path)) := by
  rw [pathsOf_foldl]
  simp [firstOccur, List.foldl_map, pathsOf]

theorem mem_foldl_firstOccur (ps : List String) (acc : List String) (p : String) :
    (p ∈ ps.foldl (fun acc q => if q ∈ acc then acc else acc ++ [q]) acc) ↔
      p ∈ acc ∨ p ∈ ps := by
  induction ps generalizing acc with
  | nil => simp
  | cons q qs ih =>
    rw [List.foldl_cons, ih]
    by_cases hq : q ∈ acc
    · rw [if_pos hq]
      constructor
      · rintro (h | h)
        · exact Or.inl h
        · exact Or.inr (List.mem_cons_of_mem _ h)
      · rintro (h | h)
        · exact Or.inl h
        · rcases List.mem_cons.mp h with rfl | h2
          · exact Or.inl hq
          · exact Or.inr h2
    · rw [if_neg hq]
      simp only [List.mem_append, List.mem_cons, List.mem_singleton]
      tauto

/-
Claim theorems.
-/

/-- C1: for every conversation_id, project_path and user_query (the stage
computations subsume the project path and query), process_smart_chat never
lets an exception from any pipeline stage propagate: whenever some stage
raises (equivalently, by the match chain of pipelineE, the pipeline
evaluates to an error e), the call still returns a result object whose
response text carries the exception message, whose tool_calls list is
empty, and whose error field holds the message. -/
theorem process_smart_chat_catches_all (conversation_id project_path : String)
    (analyze : Except String (List FileCandidate))
    (readF : List FileCandidate → Except String (List (String × String)))
    (gen : List (String × String) → Except String String) (e : String)
    (h : pipelineE analyze readF gen = Except.error e) :
    process_smart_chat conversation_id project_path analyze readF gen =
      { response := "处理请求时发生错误: " ++ e
        tool_calls := []
        conversation_id := conversation_id
        error := some e } := by
  unfold process_smart_chat
  rw [h]

/-- Witness for C1 at a concrete raising first stage. -/
theorem process_smart_chat_catches_all_witness :
    process_smart_chat "conv1" "/proj" (Except.error "boom")
      (fun _ => Except.ok []) (fun _ => Except.ok "") =
      { response := "处理请求时发生错误: " ++ "boom"
        tool_calls := []
        conversation_id := "conv1"
        error := some "boom" } :=
  process_smart_chat_catches_all "conv1" "/proj" (Except.error "boom")
    (fun _ => Except.ok []) (fun _ => Except.ok "") "boom" rfl

/-- C2 evaluation at the failing input: over the filesystem c2fs the
verbatim read of README.md fails, a path correction (./README.md) would
succeed with non-empty content, yet read_files omits the file without
attempting any correction — the correction branch of the source is
unreachable because read_file catches every exception and returns None. -/
theorem read_failure_skips_path_correction :
    read_file c2fs "README.md" = none ∧
    try_correct_path c2fs "README.md" = some "./README.md" ∧
    read_files c2fs ["README.md"] = [] := by
  exact ⟨by decide, by decide, by decide⟩

/-- C3 counterexample: for the query of scenario A over a tree containing
requirements.txt and main.py, the ranked shortlist carries
requirements.txt at priority 10 (file-type category pass), not at priority
15 or above via the curated keyword-mapping pass as the claim states. -/
theorem scenarioA_no_curated_priority :
    analyze_query scenarioA_tree scenarioA_query =
      [⟨"requirements.txt", "文件类型 python 匹配", 10⟩,
       ⟨"main.py", "文件类型 python 匹配", 10⟩] := by
  decide

/-- C3 (amended): for the query of scenario A, the shortlist includes
requirements.txt — at priority 10 via the file-type category pass, since
the curated keyword mapping is keyed on Chinese terms which the English
word dependencies does not match — and main.py is likewise included (at
priority 10), not excluded by the failure of any source-code pattern
match. -/
theorem scenarioA_amended :
    (∃ c ∈ analyze_query scenarioA_tree scenarioA_query,
        c.file_path = "requirements.txt" ∧ c.priority = 10) ∧
    (∃ c ∈ analyze_query scenarioA_tree scenarioA_query, c.file_path = "main.py") := by
  decide

/-- C4 evaluation at the failing input: for the query of scenario B over a
tree containing app/core/ai_manager.py, the special-intent pass does not
fire (extract_keywords strips the dot, so the literal detector term ai.py
can never occur in the joined keyword context) and the only candidate is
ai_manager.py at priority 10 from the category pass — no candidate has
priority 18. -/
theorem scenarioB_special_intent_dead :
    analyze_query scenarioB_tree scenarioB_query =
      [⟨"ai_manager.py", "文件类型 python 匹配", 10⟩] := by
  decide

/-- C5: prioritize_and_deduplicate returns exactly one entry per distinct
input path (the output paths are duplicate-free and are exactly the input
paths); every output entry is the first input candidate carrying the
maximal priority for its path (bestFor encodes highest-priority with
first-seen winning exact ties); the output is sorted by descending
priority; the sort is stable relative to the dict insertion order (for
every priority value, filtering the output gives exactly the corresponding
filtering of the fold-built dict); and the dict lists paths in order of
first occurrence in the input. -/
theorem prioritize_and_deduplicate_spec (files : List FileCandidate) :
    ((pathsOf (prioritize_and_deduplicate files)).Nodup ∧
      (∀ p, p ∈ pathsOf (prioritize_and_deduplicate files) ↔ p ∈ pathsOf files)) ∧
    (∀ c, c ∈ prioritize_and_deduplicate files → bestFor files c.file_path = some c) ∧
    List.Sorted (fun a b => b.priority ≤ a.priority) (prioritize_and_deduplicate files) ∧
    (∀ v, filterPr v (prioritize_and_deduplicate files) =
      filterPr v (files.foldl dictInsert [])) ∧
    pathsOf (files.foldl dictInsert []) = firstOccur (files.map (fun c => c.file_path)) := by
  have hperm : List.Perm (prioritize_and_deduplicate files) (files.foldl dictInsert []) :=
    sortDesc_perm _
  have hpermPaths : List.Perm (pathsOf (prioritize_and_deduplicate files))
      (pathsOf (files.foldl dictInsert [])) := hperm.map _
  have hnd := nodup_dedup files
  refine ⟨⟨hpermPaths.nodup_iff.mpr hnd, fun p => ?_⟩, fun c hc => ?_, sortDesc_sorted _,
    fun v => filterPr_sortDesc v _, pathsOf_dedup_firstOccur files⟩
  · rw [hpermPaths.mem_iff, pathsOf_dedup_firstOccur]
    unfold firstOccur
    rw [mem_foldl_firstOccur]
    simp [pathsOf]
  · rw [← lookupPath_dedup]
    exact lookupPath_of_mem _ c hnd (hperm.mem_iff.mp hc)

/-- Witness for C5: instantiating the merge property at a concrete input
list with a duplicated path and a tie-free maximum. -/
theorem prioritize_and_deduplicate_spec_witness :
    bestFor [⟨"a", "ra", 5⟩, ⟨"b", "rb", 20⟩, ⟨"a", "rc", 7⟩] "b" =
      some ⟨"b", "rb", 20⟩ :=
  (prioritize_and_deduplicate_spec [⟨"a", "ra", 5⟩, ⟨"b", "rb", 20⟩, ⟨"a", "rc", 7⟩]).2.1
    ⟨"b", "rb", 20⟩ (by decide)

/-- C6: for every project file tree and every query, the ranked shortlist
returned by analyze_query has at most 8 entries. -/
theorem analyze_query_shortlist_bound (project_structure : FileTree) (query : String) :
    (analyze_query project_structure query).length ≤ 8 := by
  unfold analyze_query
  exact List.length_take_le 8 _

/-- C7: extract_keywords never returns a token of length at most 1 nor a
token from the stop-word set, and the empty query yields the empty keyword
list. -/
theorem extract_keywords_spec :
    (∀ q w, w ∈ extract_keywords q → 1 < w.length ∧ w ∉ stop_words) ∧
    extract_keywords "" = [] := by
  refine ⟨fun q w hw => ?_, by decide⟩
  unfold extract_keywords at hw
  simp only [List.mem_filter, decide_eq_true_eq] at hw
  exact ⟨hw.2.2, hw.2.1⟩

/-- Witness for C7 at a concrete query and token. -/
theorem extract_keywords_spec_witness :
    "hi" ∈ extract_keywords "hi there" ∧ (1 < "hi".length ∧ "hi" ∉ stop_words) :=
  ⟨by decide, extract_keywords_spec.1 "hi there" "hi" (by decide)⟩

/-- C8: in the AI-driven file-selector variant, whenever the AI reply is
not parseable as JSON (the parse, modelled as an explicit external
parameter, returns an error), analyze_user_query returns the fixed default
two-file shortlist (README.md and package.json) instead of propagating a
parse error. -/
theorem analyze_user_query_json_fallback (ai_content : String)
    (json_loads : String → Except String (List FileRequest)) (e : String)
    (h : json_loads ai_content = Except.error e) :
    analyze_user_query ai_content json_loads = default_file_list := by
  unfold analyze_user_query
  rw [h]

/-- Witness for C8 at a concrete free-text reply and failing parse. -/
theorem analyze_user_query_json_fallback_witness :
    analyze_user_query "here are some files you should read"
      (fun _ => Except.error "Expecting value") = default_file_list :=
  analyze_user_query_json_fallback "here are some files you should read"
    (fun _ => Except.error "Expecting value") "Expecting value" rfl

set_option maxRecDepth 20000 in
/-- C9 counterexample: the claim says the preview equals the full content
exactly when the content length is 200 or less, but a 203-character content
consisting of 200 letters followed by the ellipsis marker is its own
preview while its length exceeds 200, refuting the only-if direction. -/
theorem preview_not_only_short_content :
    preview c9input = c9input ∧ 200 < c9input.length := by
  exact ⟨by decide, by decide⟩

/-- C9 (amended): for every content string the stored preview has length at
most 203 characters (200 plus the three-character ellipsis marker), and the
preview equals the full content whenever the content length is 200 or less
(the converse implication does not hold, see the counterexample). -/
theorem preview_length_spec (content : String) :
    (preview content).length ≤ 203 ∧
    (content.length ≤ 200 → preview content = content) := by
  unfold preview
  by_cases h : content.length > 200
  · rw [if_pos h]
    constructor
    · rw [String.length_append, String.length_mk, List.length_take]
      have h3 : ("..." : String).length = 3 := by decide
      rw [h3]
      omega
    · intro hle
      omega
  · rw [if_neg h]
    exact ⟨by omega, fun _ => rfl⟩

/-- Witness for C9 (amended) at a concrete short content string. -/
theorem preview_length_spec_witness :
    (preview "hi").length ≤ 203 ∧ preview "hi" = "hi" :=
  ⟨(preview_length_spec "hi").1, (preview_length_spec "hi").2 (by decide)⟩

theorem lookupEntry_append_single (read_history : List (String × ReadHistoryEntry))
    (kv : String × ReadHistoryEntry) (q : String) (hq : kv.1 ≠ q) :
    lookupEntry (read_history ++ [kv]) q = lookupEntry read_history q := by
  induction read_history with
  | nil => simp [lookupEntry, hq]
  | cons x xs ih =>
    by_cases hx : x.1 = q <;> simp [lookupEntry, hx, ih]

theorem lookupEntry_map_upsert (read_history : List (String × ReadHistoryEntry))
    (file_path : String) (entry : ReadHistoryEntry) (q : String) (hq : q ≠ file_path) :
    lookupEntry (read_history.map
        (fun kv => if kv.1 = file_path then (file_path, entry) else kv)) q =
      lookupEntry read_history q := by
  induction read_history with
  | nil => rfl
  | cons x xs ih =>
    by_cases hx : x.1 = file_path
    · have h1 : (file_path, entry).1 ≠ q := fun h => hq (h.symm)
      have h2 : x.1 ≠ q := fun h => hq ((hx ▸ h).symm)
      simp only [List.map_cons, if_pos hx, lookupEntry, if_neg h1, if_neg h2]
      exact ih
    · by_cases hxq : x.1 = q
      · simp only [List.map_cons, if_neg hx, lookupEntry, if_pos hxq]
      · simp only [List.map_cons, if_neg hx, lookupEntry, if_neg hxq]
        exact ih

theorem keys_track_file_read (read_history : List (String × ReadHistoryEntry))
    (now file_path content : String) :
    (track_file_read read_history now file_path content).map Prod.fst =
        read_history.map Prod.fst ∨
    (track_file_read read_history now file_path content).map Prod.fst =
        read_history.map Prod.fst ++ [file_path] := by
  unfold track_file_read
  by_cases hex : ∃ kv ∈ read_history, kv.1 = file_path
  · left
    rw [if_pos hex, List.map_map]
    apply List.map_congr_left
    intro kv _
    by_cases h : kv.1 = file_path <;> simp [h]
  · right
    rw [if_neg hex, List.map_append]
    rfl

/-- C10: track_file_read modifies only the read-history entry keyed by the
given path: for every other tracked path the stored entry is unchanged
afterwards, and no tracked path is ever removed by the call. -/
theorem track_file_read_frame (read_history : List (String × ReadHistoryEntry))
    (now file_path content : String) (q : String) :
    (q ≠ file_path →
      lookupEntry (track_file_read read_history now file_path content) q =
        lookupEntry read_history q) ∧
    (q ∈ read_history.map Prod.fst →
      q ∈ (track_file_read read_history now file_path content).map Prod.fst) := by
  constructor
  · intro hq
    unfold track_file_read
    by_cases hex : ∃ kv ∈ read_history, kv.1 = file_path
    · rw [if_pos hex]
      exact lookupEntry_map_upsert read_history file_path _ q hq
    · rw [if_neg hex]
      exact lookupEntry_append_single read_history _ q (fun h => hq h.symm)
  · intro hq
    rcases keys_track_file_read read_history now file_path content with h | h
    · rwa [h]
    · rw [h]
      exact List.mem_append.mpr (Or.inl hq)

/-- Witness for C10 at a concrete history, a fresh path, and an older
path. -/
theorem track_file_read_frame_witness :
    lookupEntry (track_file_read [("old.py", ⟨"t0", "p", 1⟩)] "t1" "new.py" "content")
        "old.py" =
      lookupEntry [("old.py", ⟨"t0", "p", 1⟩)] "old.py" ∧
    "old.py" ∈
      (track_file_read [("old.py", ⟨"t0", "p", 1⟩)] "t1" "new.py" "content").map Prod.fst :=
  ⟨(track_file_read_frame [("old.py", ⟨"t0", "p", 1⟩)] "t1" "new.py" "content" "old.py").1
      (by decide),
   (track_file_read_frame [("old.py", ⟨"t0", "p", 1⟩)] "t1" "new.py" "content" "old.py").2
      (by decide)⟩
